import Mathlib

/-!
Verification of the Automated Sticker Placement pipeline.

The geometric core of the repository (box detection, orientation
estimation, sticker placement, compositing) is embedded shallowly:

* machine floats are idealised as exact rationals;
* the cosine and sine of a rotated rectangle's raw angle are passed as
  explicit parameters `c` and `s` (the source obtains them from the trig
  library inside `cv2.boxPoints`); at raw angle 0 they are exactly (1, 0);
* `int(...)` in Python and `np.int0` both truncate toward zero, modelled
  by `pytrunc`;
* `cv2.pointPolygonTest(..., measureDist=True)` is used by the source only
  through the sign of its result; for the convex quadrilaterals produced by
  `cv2.boxPoints` the sign is non-negative exactly when every edge cross
  product has the same sign (or vanishes), which is what `insideQuad`
  computes;
* `np.degrees(np.arctan2 y x)` is kept abstract as an oracle parameter
  `at2 : ℚ → ℚ → ℚ` wherever a claim quantifies over all rectangles, and is
  instantiated with `atan2_deg_axis` (exact on axis-aligned vectors, the
  only vectors reached there) for the concrete test rectangles;
* `cv2.findContours`, `cv2.contourArea`, `cv2.arcLength` and
  `cv2.approxPolyDP` are external primitives; `find_box_contour` is
  therefore parametrised by the contour type, an area function and the
  vertex count of the 2%-of-perimeter polygon approximation.
-/

namespace AutoSticker

/-- Truncation toward zero: Python `int(x)` and `np.int0` on a float.  For
non-negative x this is the floor; for negative x it is the ceiling,
written as `-⌊-x⌋`. -/
def pytrunc (x : ℚ) : ℤ := if 0 ≤ x then ⌊x⌋ else -⌊-x⌋

/-- A `cv2.minAreaRect` result: ((cx, cy), (w, h), angle). -/
structure RotatedRect where
  cx : ℚ
  cy : ℚ
  w : ℚ
  h : ℚ
  angle : ℚ

/-- Four corner points in the cyclic order produced by `cv2.boxPoints`. -/
structure Quad where
  p0 : ℤ × ℤ
  p1 : ℤ × ℤ
  p2 : ℤ × ℤ
  p3 : ℤ × ℤ

/-- The four corners of a rotated rectangle, as `cv2.boxPoints` computes
them; `c` and `s` are the cosine and sine of the raw angle in degrees. -/
def boxPoints (r : RotatedRect) (c s : ℚ) : List (ℚ × ℚ) :=
  let b := c * (1/2)
  let a := s * (1/2)
  let q0 : ℚ × ℚ := (r.cx - a * r.h - b * r.w, r.cy + b * r.h - a * r.w)
  let q1 : ℚ × ℚ := (r.cx + a * r.h - b * r.w, r.cy - b * r.h - a * r.w)
  [q0, q1, (2 * r.cx - q0.1, 2 * r.cy - q0.2), (2 * r.cx - q1.1, 2 * r.cy - q1.2)]

/-- `get_box_corners` on a present rectangle: `cv2.boxPoints` followed by
`np.int0` (truncation toward zero of each coordinate). -/
def get_box_corners (r : RotatedRect) (c s : ℚ) : Quad :=
  let b := c * (1/2)
  let a := s * (1/2)
  let x0 := r.cx - a * r.h - b * r.w
  let y0 := r.cy + b * r.h - a * r.w
  let x1 := r.cx + a * r.h - b * r.w
  let y1 := r.cy - b * r.h - a * r.w
  { p0 := (pytrunc x0, pytrunc y0)
    p1 := (pytrunc x1, pytrunc y1)
    p2 := (pytrunc (2 * r.cx - x0), pytrunc (2 * r.cy - y0))
    p3 := (pytrunc (2 * r.cx - x1), pytrunc (2 * r.cy - y1)) }

/-- Option-level `get_box_corners`, mirroring the `if rect is None` guard. -/
def get_box_corners_opt (ro : Option RotatedRect) (c s : ℚ) : Option Quad :=
  match ro with
  | none => none
  | some r => some (get_box_corners r c s)

/-- `get_box_center` on a present rectangle: `(int(cx), int(cy))`. -/
def get_box_center (r : RotatedRect) : ℤ × ℤ := (pytrunc r.cx, pytrunc r.cy)

/-- Squared Euclidean length of a vector.  The source compares
`np.linalg.norm` values; comparing squares is exact for non-negative
lengths, and `norm v < 1` is exactly `lenSq v < 1`. -/
def lenSq (v : ℚ × ℚ) : ℚ := v.1 * v.1 + v.2 * v.2

/-- Edge vector from corner `a` to corner `b` (float subtraction of the
integer corners in the source). -/
def edgeQ (a b : ℤ × ℤ) : ℚ × ℚ := (((b.1 - a.1 : ℤ) : ℚ), ((b.2 - a.2 : ℤ) : ℚ))

/-- The normalisation applied by `calculate_orientation` to the degree
angle of the longest edge: absolute value, complement above 90, then the
final clamp `max(0, min(90, ...))`. -/
def normalize_deg (a : ℚ) : ℚ :=
  let a1 := |a|
  let a2 := if 90 < a1 then 180 - a1 else a1
  max 0 (min 90 a2)

/-- The corner-based primary path of `calculate_orientation` on a quad:
build the four cyclic edge vectors, pick the first longest one (Python
`max` keeps the first maximal element), take `degrees(arctan2(dy, dx))`
through the oracle `at2`, and normalise. -/
def orientation_of_quad (at2 : ℚ → ℚ → ℚ) (q : Quad) : ℚ :=
  let e0 := edgeQ q.p0 q.p1
  let e1 := edgeQ q.p1 q.p2
  let e2 := edgeQ q.p2 q.p3
  let e3 := edgeQ q.p3 q.p0
  let longest := [e1, e2, e3].foldl (fun best e => if lenSq best < lenSq e then e else best) e0
  normalize_deg (at2 longest.2 longest.1)

/-- The corner-based primary path of `calculate_orientation` on a
rectangle. -/
def orientation_primary (at2 : ℚ → ℚ → ℚ) (r : RotatedRect) (c s : ℚ) : ℚ :=
  orientation_of_quad at2 (get_box_corners r c s)

/-- The raw-angle fallback formula of `calculate_orientation`:
`abs(min_area_angle)`, then `90 - (x - 90)` when above 90. -/
def fallback_orientation (a : ℚ) : ℚ :=
  let n := |a|
  if 90 < n then 90 - (n - 90) else n

/-- `calculate_orientation`: `None` guard, then the corner branch when
`get_box_corners` yields corners, else the raw-angle fallback. -/
def calculate_orientation (at2 : ℚ → ℚ → ℚ) (ro : Option RotatedRect) (c s : ℚ) : Option ℚ :=
  match ro with
  | none => none
  | some r =>
      match get_box_corners_opt (some r) c s with
      | some q => some (orientation_of_quad at2 q)
      | none => some (fallback_orientation r.angle)

/-- Exact value of `np.degrees(np.arctan2 y x)` on axis-aligned vectors.
The concrete rectangles examined below (raw angle 0, hence cosine 1 and
sine 0) only ever reach axis-aligned longest edges, where this model
agrees exactly with the library arctangent. -/
def atan2_deg_axis (y x : ℚ) : ℚ :=
  if 0 < x ∧ y = 0 then 0
  else if x = 0 ∧ 0 < y then 90
  else if x = 0 ∧ y < 0 then -90
  else if x < 0 ∧ y = 0 then 180
  else 0

/-- First corner with minimum y coordinate (`np.argmin` keeps the first
minimum). -/
def top_corner (q : Quad) : ℤ × ℤ :=
  [q.p1, q.p2, q.p3].foldl (fun best p => if p.2 < best.2 then p else best) q.p0

/-- Cross product sign helper: z component of (a - o) × (p - o). -/
def cross2 (o a p : ℤ × ℤ) : ℤ :=
  (a.1 - o.1) * (p.2 - o.2) - (a.2 - o.2) * (p.1 - o.1)

/-- Sign of `cv2.pointPolygonTest(corners, p, True)` being non-negative:
for the convex quadrilaterals produced by `cv2.boxPoints`, the point is
inside or on the boundary exactly when all four edge cross products share
a sign (or vanish). -/
def insideQuad (q : Quad) (p : ℤ × ℤ) : Bool :=
  let c0 := cross2 q.p0 q.p1 p
  let c1 := cross2 q.p1 q.p2 p
  let c2 := cross2 q.p2 q.p3 p
  let c3 := cross2 q.p3 q.p0 p
  (decide (0 ≤ c0) && decide (0 ≤ c1) && decide (0 ≤ c2) && decide (0 ≤ c3))
    || (decide (c0 ≤ 0) && decide (c1 ≤ 0) && decide (c2 ≤ 0) && decide (c3 ≤ 0))

/-- `np.linspace a b n`: `n` evenly spaced samples from `a` to `b`
inclusive, element `i` being `a + i * (b - a) / (n - 1)`. -/
def linspace (a b : ℚ) (n : ℕ) : List ℚ :=
  (List.range n).map (fun i : ℕ => a + (i : ℚ) * ((b - a) / ((n : ℚ) - 1)))

/-- Direction vector from the (integer) box center to the top corner. -/
def sticker_direction (r : RotatedRect) (c s : ℚ) : ℚ × ℚ :=
  let center := get_box_center r
  let tc := top_corner (get_box_corners r c s)
  (((tc.1 - center.1 : ℤ) : ℚ), ((tc.2 - center.2 : ℤ) : ℚ))

/-- Candidate sticker point for one offset ratio `t`:
`(int(center + direction * t))` componentwise, with the un-normalised
direction vector. -/
def candidate_of (r : RotatedRect) (c s : ℚ) (t : ℚ) : ℤ × ℤ :=
  let center := get_box_center r
  let dir := sticker_direction r c s
  (pytrunc ((center.1 : ℚ) + dir.1 * t), pytrunc ((center.2 : ℚ) + dir.2 * t))

/-- All 30 candidate points tried by the placement search, in order. -/
def candidate_points (r : RotatedRect) (c s off : ℚ) : List (ℤ × ℤ) :=
  (linspace off (1/20) 30).map (candidate_of r c s)

/-- `calculate_sticker_position` on a present rectangle: degenerate-box
center fallback, otherwise the first of the 30 candidates passing the
point-in-polygon test, with the center as final fallback. -/
def calculate_sticker_position (r : RotatedRect) (c s offset_percent : ℚ) : ℤ × ℤ :=
  if lenSq (sticker_direction r c s) < 1 then get_box_center r
  else
    ((candidate_points r c s offset_percent).find?
        (fun p => insideQuad (get_box_corners r c s) p)).getD (get_box_center r)

/-- `calculate_sticker_position_on_face`: axis-aligned offset from the
integer center by `int(max(width, height) * offset_percent)` pixels. -/
def calculate_sticker_position_on_face (r : RotatedRect) (face : String)
    (offset_percent : ℚ) : ℤ × ℤ :=
  let center := get_box_center r
  let off := pytrunc (max r.w r.h * offset_percent)
  if face = "top" then (center.1, center.2 - off)
  else if face = "bottom" then (center.1, center.2 + off)
  else if face = "left" then (center.1 - off, center.2)
  else if face = "right" then (center.1 + off, center.2)
  else (center.1, center.2 - off)

/-- `find_box_contour`, parametrised by the contour type `α`, the external
`cv2.contourArea` function and the vertex count of the polygon
approximation at 2% of the perimeter: contours are sorted by area
descending, the first one with exactly 4 approximation vertices and area
above 1000 wins, otherwise the largest contour, and `none` exactly when
there are no contours. -/
def find_box_contour {α : Type} (area : α → ℚ) (approx_verts : α → ℕ)
    (contours : List α) : Option α :=
  if contours.isEmpty then none
  else
    match (List.insertionSort (fun a b => area b ≤ area a) contours).find?
        (fun ct => decide (approx_verts ct = 4) && decide (1000 < area ct)) with
    | some ct => some ct
    | none => (List.insertionSort (fun a b => area b ≤ area a) contours).head?

/-- A colour raster: width, height and a BGR pixel function. -/
structure Raster where
  w : ℤ
  h : ℤ
  pix : ℤ → ℤ → ℕ × ℕ × ℕ

/-- A decal raster after loading, scaling and rotation: colour pixels, an
alpha plane and a flag recording whether the raster has 4 channels. -/
structure Decal where
  w : ℤ
  h : ℤ
  pix : ℤ → ℤ → ℕ × ℕ × ℕ
  alpha : ℤ → ℤ → ℕ
  hasAlpha : Bool

/-- `astype(np.uint8)` on a float value: truncate toward zero, wrap
modulo 256. -/
def u8 (x : ℚ) : ℕ := ((pytrunc x) % 256).toNat

/-- Per-pixel alpha blend `background * (1 - a) + foreground * a` with
`a = alphaByte / 255`, converted back to `uint8` per channel. -/
def blendPix (bg fg : ℕ × ℕ × ℕ) (a : ℕ) : ℕ × ℕ × ℕ :=
  let al : ℚ := (a : ℚ) / 255
  (u8 ((bg.1 : ℚ) * (1 - al) + (fg.1 : ℚ) * al),
   u8 ((bg.2.1 : ℚ) * (1 - al) + (fg.2.1 : ℚ) * al),
   u8 ((bg.2.2 : ℚ) * (1 - al) + (fg.2.2 : ℚ) * al))

/-- Left placement edge `x1 = sx - sw // 2` (Python floor division). -/
def placeX1 (st : Decal) (sx : ℤ) : ℤ := sx - Int.fdiv st.w 2

/-- Top placement edge `y1 = sy - sh // 2` (Python floor division). -/
def placeY1 (st : Decal) (sy : ℤ) : ℤ := sy - Int.fdiv st.h 2

/-- The canvas/decal overlap region at pixel (x, y): the clipped region of
interest `[roi_x1, roi_x2) × [roi_y1, roi_y2)`. -/
def overlapRegion (img : Raster) (st : Decal) (sx sy x y : ℤ) : Prop :=
  max 0 (placeX1 st sx) ≤ x ∧ x < min img.w (placeX1 st sx + st.w) ∧
    max 0 (placeY1 st sy) ≤ y ∧ y < min img.h (placeY1 st sy + st.h)

instance (img : Raster) (st : Decal) (sx sy x y : ℤ) :
    Decidable (overlapRegion img st sx sy x y) := by
  unfold overlapRegion
  infer_instance

/-- Decal-plane coordinates read for canvas pixel (x, y):
`(x - roi_x1 + clip_x1, y - roi_y1 + clip_y1)`. -/
def decalCoord (st : Decal) (sx sy x y : ℤ) : ℤ × ℤ :=
  (x - max 0 (placeX1 st sx) + max 0 (-placeX1 st sx),
   y - max 0 (placeY1 st sy) + max 0 (-placeY1 st sy))

/-- The per-pixel result of compositing inside the non-early branch: in
the clipped overlap region, blend (4-channel decal) or overwrite
(3-channel decal) with the decal pixel read at `decalCoord`; outside the
region the canvas pixel is untouched. -/
def overlayPix (img : Raster) (st : Decal) (sx sy : ℤ) (x y : ℤ) : ℕ × ℕ × ℕ :=
  if overlapRegion img st sx sy x y then
    if st.hasAlpha then
      blendPix (img.pix x y)
        (st.pix (decalCoord st sx sy x y).1 (decalCoord st sx sy x y).2)
        (st.alpha (decalCoord st sx sy x y).1 (decalCoord st sx sy x y).2)
    else st.pix (decalCoord st sx sy x y).1 (decalCoord st sx sy x y).2
  else img.pix x y

/-- The placement and blending part of `overlay_sticker_image` (the decal
is already loaded, scaled and rotated by external primitives): compute the
placement corner, leave the canvas untouched when the early bounds test
fires, otherwise blend (with alpha) or overwrite (without) the clipped
overlap region. -/
def overlay_sticker_image (img : Raster) (st : Decal) (sx sy : ℤ) : Raster :=
  if placeX1 st sx + st.w < 0 ∨ placeY1 st sy + st.h < 0
      ∨ img.w ≤ placeX1 st sx ∨ img.h ≤ placeY1 st sy then img
  else { w := img.w, h := img.h, pix := overlayPix img st sx sy }

/-! ## Helper lemmas -/

theorem normalize_deg_nonneg (a : ℚ) : 0 ≤ normalize_deg a := le_max_left 0 _

theorem normalize_deg_le_90 (a : ℚ) : normalize_deg a ≤ 90 := by
  unfold normalize_deg
  exact max_le (by norm_num) (min_le_left _ _)

theorem find_first_has_max_key {α : Type} (f : α → ℚ) (p : α → Bool) :
    ∀ l : List α, l.Pairwise (fun a b => f b ≤ f a) →
      ∀ a, l.find? p = some a → ∀ d ∈ l, p d = true → f d ≤ f a := by
  intro l
  induction l with
  | nil => intro _ a ha; simp at ha
  | cons x t ih =>
      intro hp a hfind d hd hpd
      rw [List.pairwise_cons] at hp
      rw [List.find?_cons] at hfind
      by_cases hx : p x = true
      · rw [hx] at hfind
        simp at hfind
        subst hfind
        rcases List.mem_cons.mp hd with h | h
        · subst h; exact le_refl _
        · exact hp.1 d h
      · rw [Bool.not_eq_true] at hx
        rw [hx] at hfind
        simp at hfind
        rcases List.mem_cons.mp hd with h | h
        · subst h; exact absurd hpd (by simp [hx])
        · exact ih hp.2 a hfind d h hpd

theorem head_has_max_key {α : Type} (f : α → ℚ) :
    ∀ l : List α, l.Pairwise (fun a b => f b ≤ f a) →
      ∀ a, l.head? = some a → ∀ d ∈ l, f d ≤ f a := by
  intro l
  cases l with
  | nil => intro _ a ha; simp at ha
  | cons x t =>
      intro hp a ha d hd
      rw [List.pairwise_cons] at hp
      simp at ha
      subst ha
      rcases List.mem_cons.mp hd with h | h
      · subst h; exact le_refl _
      · exact hp.1 d h

theorem pytrunc_natCast (n : ℕ) : pytrunc (n : ℚ) = n := by
  unfold pytrunc
  rw [if_pos (by positivity)]
  exact Int.floor_natCast n

theorem u8_coe (n : ℕ) (h : n ≤ 255) : u8 (n : ℚ) = n := by
  unfold u8
  rw [pytrunc_natCast]
  rw [Int.emod_eq_of_lt (by positivity) (by exact_mod_cast Nat.lt_succ_of_le h)]
  exact Int.toNat_natCast n

theorem blendPix_opaque (bg fg : ℕ × ℕ × ℕ)
    (h1 : fg.1 ≤ 255) (h2 : fg.2.1 ≤ 255) (h3 : fg.2.2 ≤ 255) :
    blendPix bg fg 255 = fg := by
  obtain ⟨f1, f2, f3⟩ := fg
  unfold blendPix
  norm_num
  exact ⟨u8_coe f1 h1, u8_coe f2 h2, u8_coe f3 h3⟩

theorem blendPix_transparent (bg fg : ℕ × ℕ × ℕ) (a : ℕ) (ha : a = 0)
    (h1 : bg.1 ≤ 255) (h2 : bg.2.1 ≤ 255) (h3 : bg.2.2 ≤ 255) :
    blendPix bg fg a = bg := by
  obtain ⟨b1, b2, b3⟩ := bg
  subst ha
  unfold blendPix
  norm_num
  exact ⟨u8_coe b1 h1, u8_coe b2 h2, u8_coe b3 h3⟩

theorem overlap_not_early (img : Raster) (st : Decal) (sx sy x y : ℤ)
    (h : overlapRegion img st sx sy x y) :
    ¬ (placeX1 st sx + st.w < 0 ∨ placeY1 st sy + st.h < 0
        ∨ img.w ≤ placeX1 st sx ∨ img.h ≤ placeY1 st sy) := by
  obtain ⟨h1, h2, h3, h4⟩ := h
  have hx0 : (0 : ℤ) ≤ x := le_trans (le_max_left _ _) h1
  have hx1 : placeX1 st sx ≤ x := le_trans (le_max_right _ _) h1
  have hxw : x < img.w := lt_of_lt_of_le h2 (min_le_left _ _)
  have hx2 : x < placeX1 st sx + st.w := lt_of_lt_of_le h2 (min_le_right _ _)
  have hy0 : (0 : ℤ) ≤ y := le_trans (le_max_left _ _) h3
  have hy1 : placeY1 st sy ≤ y := le_trans (le_max_right _ _) h3
  have hyh : y < img.h := lt_of_lt_of_le h4 (min_le_left _ _)
  have hy2 : y < placeY1 st sy + st.h := lt_of_lt_of_le h4 (min_le_right _ _)
  push_neg
  exact ⟨by omega, by omega, by omega, by omega⟩

/-! ## Claim theorems -/

/-- C1: for every non-None rotated rectangle, the placement solver returns a
position whose point-in-polygon test against the four-corner polygon is
non-negative, or the rectangle's (integer) center as fallback; and when the
center-to-anchor-corner distance is below one pixel it returns exactly the
center. -/
theorem sticker_position_inside_or_center (r : RotatedRect) (c s op : ℚ) :
    (insideQuad (get_box_corners r c s) (calculate_sticker_position r c s op) = true
      ∨ calculate_sticker_position r c s op = get_box_center r)
    ∧ (lenSq (sticker_direction r c s) < 1 →
        calculate_sticker_position r c s op = get_box_center r) := by
  constructor
  · by_cases hd : lenSq (sticker_direction r c s) < 1
    · right
      unfold calculate_sticker_position
      rw [if_pos hd]
    · rcases hf : (candidate_points r c s op).find?
          (fun p => insideQuad (get_box_corners r c s) p) with _ | p
      · right
        unfold calculate_sticker_position
        rw [if_neg hd, hf]
        rfl
      · left
        have hp := List.find?_some hf
        unfold calculate_sticker_position
        rw [if_neg hd, hf]
        exact hp
  · intro hd
    unfold calculate_sticker_position
    rw [if_pos hd]

theorem sticker_position_degenerate_witness :
    calculate_sticker_position ⟨0, 0, 0, 0, 0⟩ 1 0 (1/4)
      = get_box_center ⟨0, 0, 0, 0, 0⟩ :=
  (sticker_position_inside_or_center ⟨0, 0, 0, 0, 0⟩ 1 0 (1/4)).2 (by
    norm_num [lenSq, sticker_direction, top_corner, get_box_corners, get_box_center, pytrunc])

/-- C2: for every non-None rotated rectangle, regardless of the sign or
magnitude of the raw fitted angle (hence for arbitrary cosine/sine
parameters and an arbitrary arctangent oracle), the orientation estimator
returns an angle within [0, 90]. -/
theorem orientation_in_unit_quadrant (at2 : ℚ → ℚ → ℚ) (r : RotatedRect) (c s : ℚ) :
    ∃ a, calculate_orientation at2 (some r) c s = some a ∧ 0 ≤ a ∧ a ≤ 90 :=
  ⟨orientation_of_quad at2 (get_box_corners r c s), rfl,
    normalize_deg_nonneg _, normalize_deg_le_90 _⟩

/-- C3: the corner-based primary normalisation and the raw-angle fallback
formula are not equivalent: for the tall box of width 50 and height 100 at
raw angle 0 the primary path yields 90 while the fallback formula applied
to the raw angle yields 0. -/
theorem orientation_formulas_diverge :
    orientation_primary atan2_deg_axis ⟨0, 0, 50, 100, 0⟩ 1 0
        ≠ fallback_orientation (RotatedRect.mk 0 0 50 100 0).angle
    ∧ orientation_primary atan2_deg_axis ⟨0, 0, 50, 100, 0⟩ 1 0 = 90
    ∧ fallback_orientation (RotatedRect.mk 0 0 50 100 0).angle = 0 := by
  have h1 : orientation_primary atan2_deg_axis ⟨0, 0, 50, 100, 0⟩ 1 0 = 90 := by
    norm_num [orientation_primary, orientation_of_quad, get_box_corners,
      edgeQ, lenSq, normalize_deg, atan2_deg_axis, pytrunc]
  have h2 : fallback_orientation (RotatedRect.mk 0 0 50 100 0).angle = 0 := by
    norm_num [fallback_orientation]
  refine ⟨?_, h1, h2⟩
  rw [h1, h2]
  norm_num

/-- C6: for the axis-aligned rectangle of width 100 and height 50 at raw
angle 0 the orientation is exactly 0, and for width 50 and height 100 it is
exactly 90 (longer side vertical). -/
theorem orientation_axis_aligned_values :
    calculate_orientation atan2_deg_axis (some ⟨0, 0, 100, 50, 0⟩) 1 0 = some 0
    ∧ calculate_orientation atan2_deg_axis (some ⟨0, 0, 50, 100, 0⟩) 1 0 = some 90 := by
  constructor <;>
    norm_num [calculate_orientation, get_box_corners_opt, orientation_of_quad,
      get_box_corners, edgeQ, lenSq, normalize_deg, atan2_deg_axis, pytrunc]

/-- C9: corner extraction returns None only on a None rectangle, so for
every non-None rectangle the orientation estimator takes the corner-based
primary path and the raw-angle fallback branch is unreachable. -/
theorem corners_present_primary_path (at2 : ℚ → ℚ → ℚ) (r : RotatedRect) (c s : ℚ) :
    get_box_corners_opt (some r) c s = some (get_box_corners r c s)
    ∧ get_box_corners_opt (none : Option RotatedRect) c s = none
    ∧ calculate_orientation at2 (some r) c s = some (orientation_primary at2 r c s) :=
  ⟨rfl, rfl, rfl⟩

/-- C10: for every face string other than bottom, left and right (including
arbitrary invalid strings), the face-relative entry point returns the top
placement: the integer center shifted up by
`int(max(width, height) * offset_percent)` pixels. -/
theorem face_invalid_defaults_to_top (r : RotatedRect) (op : ℚ) (face : String)
    (hb : face ≠ "bottom") (hl : face ≠ "left") (hr : face ≠ "right") :
    calculate_sticker_position_on_face r face op
        = calculate_sticker_position_on_face r "top" op
    ∧ calculate_sticker_position_on_face r "top" op
        = ((get_box_center r).1, (get_box_center r).2 - pytrunc (max r.w r.h * op)) := by
  constructor
  · by_cases ht : face = "top"
    · rw [ht]
    · simp [calculate_sticker_position_on_face, ht, hb, hl, hr]
  · simp [calculate_sticker_position_on_face]

theorem face_invalid_witness :
    calculate_sticker_position_on_face ⟨0, 0, 4, 2, 0⟩ "diagonal" (1/2)
      = calculate_sticker_position_on_face ⟨0, 0, 4, 2, 0⟩ "top" (1/2) :=
  (face_invalid_defaults_to_top ⟨0, 0, 4, 2, 0⟩ (1/2) "diagonal"
    (by decide) (by decide) (by decide)).1

/-- C4: given an edge map's contours, the rectangle extractor considers
contours in descending order of enclosed area and returns the first one
whose 2%-of-perimeter polygon approximation has exactly 4 vertices and
whose area exceeds 1000; if none qualifies it returns the largest contour
by area, and it returns none exactly when there are no contours. -/
theorem find_box_contour_spec {α : Type} (area : α → ℚ) (av : α → ℕ) (cs : List α) :
    (find_box_contour area av cs = none ↔ cs = [])
    ∧ ∀ ct, find_box_contour area av cs = some ct →
        ct ∈ cs ∧
        ((av ct = 4 ∧ 1000 < area ct
            ∧ ∀ d ∈ cs, av d = 4 ∧ 1000 < area d → area d ≤ area ct)
          ∨ ((∀ d ∈ cs, ¬(av d = 4 ∧ 1000 < area d))
            ∧ ∀ d ∈ cs, area d ≤ area ct)) := by
  haveI hT : IsTotal α (fun a b => area b ≤ area a) := ⟨fun a b => le_total (area b) (area a)⟩
  haveI hTr : IsTrans α (fun a b => area b ≤ area a) := ⟨fun _ _ _ h1 h2 => le_trans h2 h1⟩
  by_cases hcs : cs = []
  · subst hcs
    refine ⟨by simp [find_box_contour], ?_⟩
    intro ct hct
    simp [find_box_contour] at hct
  · have hne : cs.isEmpty = false := by
      cases cs with
      | nil => exact absurd rfl hcs
      | cons a t => rfl
    have hperm : List.Perm (List.insertionSort (fun a b => area b ≤ area a) cs) cs :=
      List.perm_insertionSort _ cs
    have hsorted : (List.insertionSort (fun a b => area b ≤ area a) cs).Pairwise
        (fun a b => area b ≤ area a) :=
      List.sorted_insertionSort _ cs
    rcases hf : (List.insertionSort (fun a b => area b ≤ area a) cs).find?
        (fun ct => decide (av ct = 4) && decide (1000 < area ct)) with _ | ct0
    · have hsne : List.insertionSort (fun a b => area b ≤ area a) cs ≠ [] := by
        intro h
        rw [h] at hperm
        exact hcs hperm.symm.eq_nil
      obtain ⟨hd, tl, hcons⟩ := List.exists_cons_of_ne_nil hsne
      have hres : find_box_contour area av cs = some hd := by
        unfold find_box_contour
        rw [if_neg (by simp [hne])]
        rw [hf, hcons]
        rfl
      constructor
      · constructor
        · intro h; rw [hres] at h; exact absurd h (by simp)
        · intro h; exact absurd h hcs
      · intro ct hct
        rw [hres] at hct
        injection hct with hct
        subst hct
        have hmem : hd ∈ cs := hperm.mem_iff.mp (by rw [hcons]; exact List.mem_cons_self _ _)
        refine ⟨hmem, Or.inr ⟨?_, ?_⟩⟩
        · intro d hd2 hq
          have hds : d ∈ List.insertionSort (fun a b => area b ≤ area a) cs :=
            hperm.mem_iff.mpr hd2
          have hnq := List.find?_eq_none.mp hf d hds
          simp at hnq
          exact absurd hq.2 (not_lt.mpr (hnq hq.1))
        · intro d hd2
          have hds : d ∈ List.insertionSort (fun a b => area b ≤ area a) cs :=
            hperm.mem_iff.mpr hd2
          exact head_has_max_key area _ hsorted hd (by rw [hcons]; rfl) d hds
    · have hres : find_box_contour area av cs = some ct0 := by
        unfold find_box_contour
        rw [if_neg (by simp [hne])]
        rw [hf]
      constructor
      · constructor
        · intro h; rw [hres] at h; exact absurd h (by simp)
        · intro h; exact absurd h hcs
      · intro ct hct
        rw [hres] at hct
        injection hct with hct
        subst hct
        have hmemS : ct0 ∈ List.insertionSort (fun a b => area b ≤ area a) cs :=
          List.mem_of_find?_eq_some hf
        have hmem : ct0 ∈ cs := hperm.mem_iff.mp hmemS
        have hpct := List.find?_some hf
        simp at hpct
        refine ⟨hmem, Or.inl ⟨hpct.1, hpct.2, ?_⟩⟩
        intro d hd2 hq
        have hds : d ∈ List.insertionSort (fun a b => area b ≤ area a) cs :=
          hperm.mem_iff.mpr hd2
        exact find_first_has_max_key area _ _ hsorted ct0 hf d hds (by simp [hq.1, hq.2])

theorem find_box_contour_witness :
    (find_box_contour (fun n : ℕ => (n : ℚ)) (fun _ => 4) [1, 2] = none
      ↔ ([1, 2] : List ℕ) = []) :=
  (find_box_contour_spec (fun n : ℕ => (n : ℚ)) (fun _ => 4) [1, 2]).1

/-- C5: for a non-degenerate rectangle the placement search generates
exactly 30 candidate ratios linearly spaced from the offset percentage
down to 0.05 inclusive in descending order, computes each candidate as
center plus the un-normalised direction vector times the ratio, tests them
in order and returns the first non-negative one; for the square box
centered at (100,100) of size 80 by 80 with raw angle 0 and offset 0.1 the
returned position is the first candidate, equals center plus direction
times 0.1, namely (96, 96), and tests non-negative. -/
theorem placement_search_spec (off : ℚ) (hoff : 1/20 ≤ off) :
    (linspace off (1/20) 30).length = 30
    ∧ (linspace off (1/20) 30)[0]? = some off
    ∧ (linspace off (1/20) 30)[29]? = some (1/20)
    ∧ (linspace off (1/20) 30).Pairwise (fun a b => b ≤ a)
    ∧ (∀ (r : RotatedRect) (c s : ℚ), ¬ lenSq (sticker_direction r c s) < 1 →
        calculate_sticker_position r c s off
          = ((candidate_points r c s off).find?
              (fun p => insideQuad (get_box_corners r c s) p)).getD (get_box_center r))
    ∧ calculate_sticker_position ⟨100, 100, 80, 80, 0⟩ 1 0 (1/10)
        = candidate_of ⟨100, 100, 80, 80, 0⟩ 1 0 (1/10)
    ∧ candidate_of ⟨100, 100, 80, 80, 0⟩ 1 0 (1/10) = (96, 96)
    ∧ insideQuad (get_box_corners ⟨100, 100, 80, 80, 0⟩ 1 0) (96, 96) = true := by
  have hcand : candidate_of ⟨100, 100, 80, 80, 0⟩ 1 0 (1/10) = (96, 96) := by
    norm_num [candidate_of, sticker_direction, top_corner, get_box_corners,
      get_box_center, pytrunc]
  have hinside : insideQuad (get_box_corners ⟨100, 100, 80, 80, 0⟩ 1 0) (96, 96) = true := by
    norm_num [insideQuad, get_box_corners, cross2, pytrunc]
  have hndeg : ¬ lenSq (sticker_direction ⟨100, 100, 80, 80, 0⟩ 1 0) < 1 := by
    norm_num [lenSq, sticker_direction, top_corner, get_box_corners, get_box_center, pytrunc]
  refine ⟨?_, ?_, ?_, ?_, ?_, ?_, hcand, hinside⟩
  · simp [linspace]
  · unfold linspace
    rw [List.getElem?_map, List.getElem?_range (by norm_num)]
    norm_num
  · unfold linspace
    rw [List.getElem?_map, List.getElem?_range (by norm_num)]
    simp only [Option.map_some']
    congr 1
    push_cast
    field_simp
    ring
  · unfold linspace
    refine List.Pairwise.map _ ?_ (List.pairwise_lt_range 30)
    intro i j hij
    have hstep : ((1 : ℚ)/20 - off) / ((30 : ℚ) - 1) ≤ 0 := by
      apply div_nonpos_of_nonpos_of_nonneg
      · linarith
      · norm_num
    have hcast : (i : ℚ) ≤ (j : ℚ) := by exact_mod_cast hij.le
    have := mul_le_mul_of_nonpos_right hcast hstep
    linarith
  · intro r c s h
    unfold calculate_sticker_position
    rw [if_neg h]
  · unfold calculate_sticker_position
    rw [if_neg hndeg]
    have hfind : (candidate_points ⟨100, 100, 80, 80, 0⟩ 1 0 (1/10)).find?
        (fun p => insideQuad (get_box_corners ⟨100, 100, 80, 80, 0⟩ 1 0) p)
        = some (candidate_of ⟨100, 100, 80, 80, 0⟩ 1 0 (1/10)) := by
      unfold candidate_points linspace
      rw [List.range_succ_eq_map, List.map_cons, List.map_cons]
      simp only [Nat.cast_zero, zero_mul, add_zero]
      rw [List.find?_cons_of_pos]
      rw [hcand]
      exact hinside
    rw [hfind]
    rfl

theorem placement_search_witness : (linspace (1/10) (1/20) 30).length = 30 :=
  (placement_search_spec (1/10) (by norm_num)).1

theorem overlay_pix_of_not_early (img : Raster) (st : Decal) (sx sy : ℤ)
    (h : ¬ (placeX1 st sx + st.w < 0 ∨ placeY1 st sy + st.h < 0
        ∨ img.w ≤ placeX1 st sx ∨ img.h ≤ placeY1 st sy)) :
    (overlay_sticker_image img st sx sy).pix = overlayPix img st sx sy := by
  unfold overlay_sticker_image
  rw [if_neg h]

/-- C7: in the canvas/decal overlap region, compositing with a decal whose
alpha channel reads 255 at the pixel makes the overlapped canvas pixel
exactly the decal colour pixel, and a decal alpha of 0 leaves the canvas
pixel exactly unchanged (in or out of the overlap region). -/
theorem overlay_alpha_extremes (img : Raster) (st : Decal) (sx sy x y : ℤ)
    (hA : st.hasAlpha = true) :
    (overlapRegion img st sx sy x y →
      st.alpha (decalCoord st sx sy x y).1 (decalCoord st sx sy x y).2 = 255 →
      (st.pix (decalCoord st sx sy x y).1 (decalCoord st sx sy x y).2).1 ≤ 255 →
      (st.pix (decalCoord st sx sy x y).1 (decalCoord st sx sy x y).2).2.1 ≤ 255 →
      (st.pix (decalCoord st sx sy x y).1 (decalCoord st sx sy x y).2).2.2 ≤ 255 →
      (overlay_sticker_image img st sx sy).pix x y
        = st.pix (decalCoord st sx sy x y).1 (decalCoord st sx sy x y).2)
    ∧ (st.alpha (decalCoord st sx sy x y).1 (decalCoord st sx sy x y).2 = 0 →
      (img.pix x y).1 ≤ 255 → (img.pix x y).2.1 ≤ 255 → (img.pix x y).2.2 ≤ 255 →
      (overlay_sticker_image img st sx sy).pix x y = img.pix x y) := by
  constructor
  · intro hreg ha h1 h2 h3
    rw [overlay_pix_of_not_early img st sx sy (overlap_not_early img st sx sy x y hreg)]
    unfold overlayPix
    rw [if_pos hreg, hA, if_pos rfl, ha]
    exact blendPix_opaque _ _ h1 h2 h3
  · intro ha h1 h2 h3
    by_cases hearly : placeX1 st sx + st.w < 0 ∨ placeY1 st sy + st.h < 0
        ∨ img.w ≤ placeX1 st sx ∨ img.h ≤ placeY1 st sy
    · unfold overlay_sticker_image
      rw [if_pos hearly]
    · rw [overlay_pix_of_not_early img st sx sy hearly]
      unfold overlayPix
      by_cases hreg : overlapRegion img st sx sy x y
      · rw [if_pos hreg, hA, if_pos rfl]
        exact blendPix_transparent _ _ _ ha h1 h2 h3
      · rw [if_neg hreg]

theorem overlay_alpha_witness :
    (overlay_sticker_image ⟨10, 10, fun _ _ => (1, 2, 3)⟩
        ⟨4, 4, fun _ _ => (7, 8, 9), fun _ _ => 255, true⟩ 5 5).pix 5 5 = (7, 8, 9) :=
  (overlay_alpha_extremes ⟨10, 10, fun _ _ => (1, 2, 3)⟩
      ⟨4, 4, fun _ _ => (7, 8, 9), fun _ _ => 255, true⟩ 5 5 5 5 rfl).1
    (by decide) rfl (by decide) (by decide) (by decide)

/-- C8: when the decal's placement rectangle lies entirely outside the
canvas bounds, compositing returns the canvas with every pixel unchanged
and the same dimensions. -/
theorem overlay_outside_unchanged (img : Raster) (st : Decal) (sx sy x y : ℤ)
    (h : placeX1 st sx + st.w ≤ 0 ∨ placeY1 st sy + st.h ≤ 0
        ∨ img.w ≤ placeX1 st sx ∨ img.h ≤ placeY1 st sy) :
    (overlay_sticker_image img st sx sy).pix x y = img.pix x y
    ∧ (overlay_sticker_image img st sx sy).w = img.w
    ∧ (overlay_sticker_image img st sx sy).h = img.h := by
  by_cases hearly : placeX1 st sx + st.w < 0 ∨ placeY1 st sy + st.h < 0
      ∨ img.w ≤ placeX1 st sx ∨ img.h ≤ placeY1 st sy
  · unfold overlay_sticker_image
    rw [if_pos hearly]
    exact ⟨rfl, rfl, rfl⟩
  · have hpix := overlay_pix_of_not_early img st sx sy hearly
    have hreg : ¬ overlapRegion img st sx sy x y := by
      intro hr
      obtain ⟨h1, h2, h3, h4⟩ := hr
      have hx0 : (0 : ℤ) ≤ x := le_trans (le_max_left _ _) h1
      have hx1 : placeX1 st sx ≤ x := le_trans (le_max_right _ _) h1
      have hxw : x < img.w := lt_of_lt_of_le h2 (min_le_left _ _)
      have hx2 : x < placeX1 st sx + st.w := lt_of_lt_of_le h2 (min_le_right _ _)
      have hy0 : (0 : ℤ) ≤ y := le_trans (le_max_left _ _) h3
      have hy1 : placeY1 st sy ≤ y := le_trans (le_max_right _ _) h3
      have hyh : y < img.h := lt_of_lt_of_le h4 (min_le_left _ _)
      have hy2 : y < placeY1 st sy + st.h := lt_of_lt_of_le h4 (min_le_right _ _)
      rcases h with h | h | h | h <;> omega
    refine ⟨?_, ?_, ?_⟩
    · rw [hpix]
      unfold overlayPix
      rw [if_neg hreg]
    · unfold overlay_sticker_image
      rw [if_neg hearly]
    · unfold overlay_sticker_image
      rw [if_neg hearly]

theorem overlay_outside_witness :
    (overlay_sticker_image ⟨10, 10, fun _ _ => (1, 2, 3)⟩
        ⟨2, 2, fun _ _ => (7, 8, 9), fun _ _ => 255, true⟩ (-5) 0).pix 3 3 = (1, 2, 3) :=
  (overlay_outside_unchanged ⟨10, 10, fun _ _ => (1, 2, 3)⟩
      ⟨2, 2, fun _ _ => (7, 8, 9), fun _ _ => 255, true⟩ (-5) 0 3 3
      (Or.inl (by decide))).1

end AutoSticker
